import Mathlib

/-!
Shallow embedding of `src/src/AggregateFunctions/AggregateFunctionGroupArrayInsertAt.cpp`
(the `groupArrayInsertAt` aggregate function of ClickHouse).

The aggregation state `AggregateFunctionGroupArrayInsertAtDataGeneric` holds an
`Array value` of `Field`s; a `Field` is either `Null` or a concrete value of the
configured element type.  We embed the element type as a type parameter `V`, a
`Field` as `Option V` (`none` = Null), and the state as `List (Option V)`.

The function object's configuration (`default_value`, `length_to_resize`) is the
`Config` structure; after construction `default_value` is guaranteed non-null,
so it is a plain `V`.  Byte streams are `List Nat` (one `Nat` per byte).
-/

namespace GroupArrayInsertAt

/-- `constexpr size_t AGGREGATE_FUNCTION_GROUP_ARRAY_INSERT_AT_MAX_SIZE = 0xFFFFFF;` -/
def AGGREGATE_FUNCTION_GROUP_ARRAY_INSERT_AT_MAX_SIZE : Nat := 0xFFFFFF

/-- The aggregation state: `Array value` of `AggregateFunctionGroupArrayInsertAtDataGeneric`.
Index = position; `none` models a Null `Field` ("not yet written"). -/
abbrev State (V : Type) := List (Option V)

/-- The configuration of one `AggregateFunctionGroupArrayInsertAtGeneric` instance:
the member fields `default_value` (non-null after the constructor ran) and
`length_to_resize` (`0` means: do not resize). -/
structure Config (V : Type) where
  default_value : V
  length_to_resize : Nat

/-- Reading slot `i` of a state; positions beyond the current length are empty.
This is `arr[i]` with the convention that out-of-range reads as Null. -/
def slotAt {V : Type} (s : State V) (i : Nat) : Option V := s.getD i none

/-- Error conditions raised by the embedded operations.  `tooLargeArraySize`
models `ErrorCodes::TOO_LARGE_ARRAY_SIZE` (the spec's `ResourceLimitExceeded`);
`cannotRead` models a read failure of the input byte stream. -/
inductive AggError where
  | tooLargeArraySize
  | cannotRead
deriving DecidableEq

/-- `AggregateFunctionGroupArrayInsertAtGeneric::add`: insert `value` (a `Field`,
possibly Null) at `position`.  Mirrors the source line by line:
silent drop when `length_to_resize` is set and `position >= length_to_resize`;
`TOO_LARGE_ARRAY_SIZE` when `position >= MAX_SIZE`; otherwise grow to
`position + 1` if needed (new slots Null) and store, or keep an already
non-null slot (first-write-wins). -/
def add {V : Type} (cfg : Config V) (s : State V) (value : Option V) (position : Nat) :
    Except AggError (State V) :=
  if cfg.length_to_resize ≠ 0 ∧ cfg.length_to_resize ≤ position then
    .ok s
  else if AGGREGATE_FUNCTION_GROUP_ARRAY_INSERT_AT_MAX_SIZE ≤ position then
    .error .tooLargeArraySize
  else if s.length ≤ position then
    .ok ((s ++ List.replicate (position + 1 - s.length) none).set position value)
  else if (slotAt s position).isSome then
    .ok s
  else
    .ok (s.set position value)

/-- The element-wise loop of `merge`: for each index of `src`,
`if (arr_lhs[i].isNull() && !arr_rhs[i].isNull()) arr_lhs[i] = arr_rhs[i];`.
The first argument is the already-grown `dst`, so it is at least as long as `src`. -/
def mergeLoop {V : Type} : List (Option V) → List (Option V) → List (Option V)
  | l, [] => l
  | [], _ :: _ => []
  | d :: ds, s :: ss => (if d.isNone && s.isSome then s else d) :: mergeLoop ds ss

/-- `AggregateFunctionGroupArrayInsertAtGeneric::merge`: grow `dst` to
`max(len(dst), len(src))` (new slots Null), then run the element-wise loop. -/
def merge {V : Type} (dst src : State V) : State V :=
  mergeLoop
    (if dst.length < src.length then dst ++ List.replicate (src.length - dst.length) none else dst)
    src

/-- Modelled from the spec: the wire format's `VarUInt size` prefix
(`writeVarUInt` of `IO/WriteHelpers.h`, which is not part of this core's file):
7 value bits per byte, least-significant group first, high bit set on every
byte but the last. -/
def writeVarUInt (n : Nat) : List Nat :=
  if n < 128 then [n]
  else (n % 128 + 128) :: writeVarUInt (n / 128)
termination_by n
decreasing_by
  exact Nat.div_lt_self (by omega) (by omega)

/-- Modelled from the spec: the matching `readVarUInt` of `IO/ReadHelpers.h`.
Returns the decoded number and the unconsumed rest of the stream, or `none`
when the stream ends inside the encoding. -/
def readVarUInt : List Nat → Option (Nat × List Nat)
  | [] => none
  | b :: bs =>
    if b < 128 then some (b, bs)
    else
      match readVarUInt bs with
      | some (n, rest) => some (b % 128 + 128 * n, rest)
      | none => none

/-- Modelled from the spec: the per-type serializer capability
(`serialization->serializeBinary` / `deserializeBinary`); the type encoder is
assumed self-delimiting, which is the `Roundtrips` hypothesis below. -/
structure ValueCodec (V : Type) where
  enc : V → List Nat
  dec : List Nat → Option (V × List Nat)

/-- The self-delimiting round-trip contract the engine's per-type serialization
provides: decoding an encoded value consumes exactly the encoding. -/
def Roundtrips {V : Type} (c : ValueCodec V) : Prop :=
  ∀ (v : V) (rest : List Nat), c.dec (c.enc v ++ rest) = some (v, rest)

/-- One element of the wire format: a `NullFlag` byte (`1` = Null, `0` = present)
followed, only if present, by the value's own encoding. -/
def serializeElem {V : Type} (c : ValueCodec V) : Option V → List Nat
  | none => [1]
  | some v => 0 :: c.enc v

/-- The serialization loop over the state's elements, in order. -/
def serializeElems {V : Type} (c : ValueCodec V) : State V → List Nat
  | [] => []
  | e :: es => serializeElem c e ++ serializeElems c es

/-- `AggregateFunctionGroupArrayInsertAtGeneric::serialize`: `VarUInt size`
followed by the flag-tagged elements. -/
def serializeState {V : Type} (c : ValueCodec V) (s : State V) : List Nat :=
  writeVarUInt s.length ++ serializeElems c s

/-- The deserialization loop: read `n` elements, each a flag byte and, when the
flag is `0`, a value decoded by the capability.  A non-zero flag leaves the
slot Null (the freshly resized slot of the source). -/
def deserializeElems {V : Type} (c : ValueCodec V) :
    Nat → List Nat → Except AggError (State V × List Nat)
  | 0, bs => .ok ([], bs)
  | _ + 1, [] => .error .cannotRead
  | n + 1, flag :: bs =>
    if flag ≠ 0 then
      (deserializeElems c n bs).map (fun pr => (none :: pr.1, pr.2))
    else
      match c.dec bs with
      | none => .error .cannotRead
      | some pr => (deserializeElems c n pr.2).map (fun pr2 => (some pr.1 :: pr2.1, pr2.2))

/-- `AggregateFunctionGroupArrayInsertAtGeneric::deserialize` into a fresh state:
read `VarUInt size`, reject with `TOO_LARGE_ARRAY_SIZE` when
`size > MAX_SIZE`, then read the elements.  Returns the new state and the
unconsumed rest of the stream. -/
def deserializeState {V : Type} (c : ValueCodec V) (bs : List Nat) :
    Except AggError (State V × List Nat) :=
  match readVarUInt bs with
  | none => .error .cannotRead
  | some (size, rest) =>
    if AGGREGATE_FUNCTION_GROUP_ARRAY_INSERT_AT_MAX_SIZE < size then
      .error .tooLargeArraySize
    else
      deserializeElems c size rest

/-- The output `ColumnArray`: a flat data column and the running end-offsets of
the rows.  `offsets.getLastD 0` is `to_offsets.back()` (defined as `0` for an
empty column, matching the engine's offset padding). -/
structure ColumnArray (V : Type) where
  data : List V
  offsets : List Nat

/-- `size_t result_array_size = length_to_resize ? length_to_resize : arr.size();` -/
def resultArraySize {V : Type} (cfg : Config V) (s : State V) : Nat :=
  if cfg.length_to_resize ≠ 0 then cfg.length_to_resize else s.length

/-- One element as emitted by the first loop of `insertResultInto`:
`if (!elem.isNull()) to_data.insert(elem); else to_data.insert(default_value);`. -/
def emitElem {V : Type} (cfg : Config V) (e : Option V) : V :=
  match e with
  | some v => v
  | none => cfg.default_value

/-- Everything the two loops of `insertResultInto` append to the data column:
the mapped elements followed by the padding of defaults up to `result_array_size`. -/
def emittedData {V : Type} (cfg : Config V) (s : State V) : List V :=
  s.map (emitElem cfg) ++ List.replicate (resultArraySize cfg s - s.length) cfg.default_value

/-- `AggregateFunctionGroupArrayInsertAtGeneric::insertResultInto`: append the
emitted elements to the data column and push the new end offset
`to_offsets.back() + result_array_size`. -/
def insertResultInto {V : Type} (cfg : Config V) (s : State V) (col : ColumnArray V) :
    ColumnArray V :=
  { data := col.data ++ emittedData cfg s
    offsets := col.offsets ++ [col.offsets.getLastD 0 + resultArraySize cfg s] }

/-- The array value of the last row of a column, as the engine reads it back:
the slice of the data column between the second-to-last and the last offset. -/
def lastRow {V : Type} (col : ColumnArray V) : List V :=
  (col.data.drop (col.offsets.dropLast.getLastD 0)).take
    (col.offsets.getLastD 0 - col.offsets.dropLast.getLastD 0)

/-- A column is well formed when its data column ends exactly at its last offset. -/
def WellFormed {V : Type} (col : ColumnArray V) : Prop :=
  col.data.length = col.offsets.getLastD 0

/-- States reachable from the empty state by inserts that succeeded, merges of
reachable states, and deserialization of arbitrary byte streams that succeeded. -/
inductive Reachable {V : Type} (cfg : Config V) (c : ValueCodec V) : State V → Prop where
  | empty : Reachable cfg c []
  | insert {s s' : State V} {v : Option V} {p : Nat} :
      Reachable cfg c s → add cfg s v p = .ok s' → Reachable cfg c s'
  | mergeStep {s t : State V} :
      Reachable cfg c s → Reachable cfg c t → Reachable cfg c (merge s t)
  | deser {bs rest : List Nat} {s : State V} :
      deserializeState c bs = .ok (s, rest) → Reachable cfg c s

/-- A concrete codec for `V = Nat` used to instantiate witnesses: a value is one
byte holding the number itself. -/
def natCodec : ValueCodec Nat where
  enc := fun v => [v]
  dec := fun bs =>
    match bs with
    | [] => none
    | b :: rest => some (b, rest)

/-! Basic lemmas about slot reads. -/

theorem slotAt_nil {V : Type} (i : Nat) : slotAt ([] : State V) i = none := by
  cases i <;> rfl

theorem slotAt_cons_zero {V : Type} (e : Option V) (s : State V) :
    slotAt (e :: s) 0 = e := rfl

theorem slotAt_cons_succ {V : Type} (e : Option V) (s : State V) (i : Nat) :
    slotAt (e :: s) (i + 1) = slotAt s i := rfl

theorem slotAt_of_length_le {V : Type} (s : State V) (i : Nat) (h : s.length ≤ i) :
    slotAt s i = none :=
  List.getD_eq_default s none h

theorem slotAt_eq_getElem {V : Type} (s : State V) (i : Nat) (h : i < s.length) :
    slotAt s i = s[i] := by
  simp [slotAt, List.getD_eq_getElem?_getD, List.getElem?_eq_getElem h]

theorem slotAt_append_replicate {V : Type} (s : State V) (k i : Nat) :
    slotAt (s ++ List.replicate k none) i = slotAt s i := by
  unfold slotAt
  rcases Nat.lt_or_ge i s.length with h | h
  · rw [List.getD_eq_getElem?_getD, List.getElem?_append_left h,
      ← List.getD_eq_getElem?_getD]
  · rcases Nat.lt_or_ge i (s.length + k) with h2 | h2
    · rw [List.getD_eq_getElem?_getD, List.getElem?_append_right h]
      rw [List.getD_eq_default s none h]
      have : i - s.length < k := by omega
      simp [List.getElem?_replicate, this]
    · rw [List.getD_eq_default, List.getD_eq_default s none h]
      simpa using h2

theorem State.ext {V : Type} {s t : State V} (hlen : s.length = t.length)
    (hslot : ∀ i : Nat, slotAt s i = slotAt t i) : s = t := by
  apply List.ext_getElem?
  intro i
  rcases Nat.lt_or_ge i s.length with h | h
  · have ht : i < t.length := hlen ▸ h
    rw [List.getElem?_eq_getElem h, List.getElem?_eq_getElem ht]
    have := hslot i
    rw [slotAt_eq_getElem s i h, slotAt_eq_getElem t i ht] at this
    rw [this]
  · rw [List.getElem?_eq_none h, List.getElem?_eq_none (hlen ▸ h)]

/-! Characterization of `merge`: its length and its slots. -/

theorem mergeLoop_length {V : Type} (src l : List (Option V)) (h : src.length ≤ l.length) :
    (mergeLoop l src).length = l.length := by
  induction src generalizing l with
  | nil => cases l <;> rfl
  | cons x xs ih =>
    cases l with
    | nil => simp at h
    | cons d ds =>
      simp only [mergeLoop, List.length_cons]
      rw [ih ds (by simpa using h)]

theorem slotAt_mergeLoop {V : Type} (src l : List (Option V)) (h : src.length ≤ l.length)
    (i : Nat) :
    slotAt (mergeLoop l src) i =
      if (slotAt l i).isSome then slotAt l i else slotAt src i := by
  induction src generalizing l i with
  | nil =>
    cases l with
    | nil => simp [mergeLoop, slotAt_nil]
    | cons d ds =>
      simp only [mergeLoop, slotAt_nil]
      cases hd : slotAt (d :: ds) i <;> simp [hd]
  | cons x xs ih =>
    cases l with
    | nil => simp at h
    | cons d ds =>
      cases i with
      | zero =>
        simp only [mergeLoop, slotAt_cons_zero]
        cases d <;> cases x <;> simp
      | succ n =>
        simp only [mergeLoop, slotAt_cons_succ]
        exact ih ds (by simpa using h) n

theorem grown_length {V : Type} (dst src : State V) :
    (if dst.length < src.length then
        dst ++ List.replicate (src.length - dst.length) none
      else dst).length = max dst.length src.length := by
  rcases Nat.lt_or_ge dst.length src.length with h | h
  · simp [h, Nat.max_eq_right (Nat.le_of_lt h)]
    omega
  · simp [Nat.not_lt.mpr h, Nat.max_eq_left h]

theorem merge_length {V : Type} (dst src : State V) :
    (merge dst src).length = max dst.length src.length := by
  unfold merge
  rw [mergeLoop_length]
  · exact grown_length dst src
  · rw [grown_length]; exact Nat.le_max_right _ _

theorem slotAt_merge {V : Type} (dst src : State V) (i : Nat) :
    slotAt (merge dst src) i =
      if (slotAt dst i).isSome then slotAt dst i else slotAt src i := by
  unfold merge
  rw [slotAt_mergeLoop src _ (by rw [grown_length]; exact Nat.le_max_right _ _) i]
  rcases Nat.lt_or_ge dst.length src.length with h | h
  · simp only [h, if_pos, slotAt_append_replicate]
  · simp only [Nat.not_lt.mpr h, if_neg, ite_false]

/-! Finalization: the last row appended by `insertResultInto`. -/

theorem emitElem_eq_getD {V : Type} (cfg : Config V) (e : Option V) :
    emitElem cfg e = e.getD cfg.default_value := by
  cases e <;> rfl

theorem emittedData_length {V : Type} (cfg : Config V) (s : State V) :
    (emittedData cfg s).length = max s.length (resultArraySize cfg s) := by
  simp [emittedData]
  omega

theorem lastRow_insertResultInto {V : Type} (cfg : Config V) (s : State V)
    (col : ColumnArray V) (hwf : WellFormed col) :
    lastRow (insertResultInto cfg s col) =
      (emittedData cfg s).take (resultArraySize cfg s) := by
  unfold lastRow insertResultInto
  simp only [List.dropLast_concat]
  rw [List.getLastD_concat]
  rw [← hwf, Nat.add_sub_cancel_left, List.drop_left]

theorem lastRow_length {V : Type} (cfg : Config V) (s : State V)
    (col : ColumnArray V) (hwf : WellFormed col) :
    (lastRow (insertResultInto cfg s col)).length = resultArraySize cfg s := by
  rw [lastRow_insertResultInto cfg s col hwf, List.length_take, emittedData_length]
  omega

theorem lastRow_getElem? {V : Type} (cfg : Config V) (s : State V)
    (col : ColumnArray V) (hwf : WellFormed col) (i : Nat)
    (hi : i < resultArraySize cfg s) :
    (lastRow (insertResultInto cfg s col))[i]? =
      some ((slotAt s i).getD cfg.default_value) := by
  rw [lastRow_insertResultInto cfg s col hwf]
  rw [List.getElem?_take, if_pos hi]
  unfold emittedData
  rcases Nat.lt_or_ge i s.length with h | h
  · rw [List.getElem?_append_left (by simpa using h)]
    rw [List.getElem?_map, List.getElem?_eq_getElem h]
    rw [slotAt_eq_getElem s i h]
    simp [emitElem_eq_getD]
  · rw [List.getElem?_append_right (by simpa using h)]
    rw [slotAt_of_length_le s i h]
    have hlt : i - s.length < resultArraySize cfg s - s.length := by omega
    simp only [List.length_map, List.getElem?_replicate]
    simp [hlt]

/-! Round trip of the VarUInt prefix and of the element loops. -/

theorem readVarUInt_writeVarUInt (n : Nat) (rest : List Nat) :
    readVarUInt (writeVarUInt n ++ rest) = some (n, rest) := by
  induction n using Nat.strong_induction_on with
  | _ n ih =>
    by_cases h : n < 128
    · rw [writeVarUInt, if_pos h]
      simp [readVarUInt, h]
    · rw [writeVarUInt, if_neg h]
      have hb : ¬ (n % 128 + 128 < 128) := by omega
      rw [List.cons_append, readVarUInt, if_neg hb]
      rw [ih (n / 128) (Nat.div_lt_self (by omega) (by omega))]
      show some ((n % 128 + 128) % 128 + 128 * (n / 128), rest) = some (n, rest)
      have hmod : (n % 128 + 128) % 128 = n % 128 := by omega
      rw [hmod, Nat.mod_add_div n 128]

theorem exceptMap_ok {ε α β : Type} (f : α → β) (x : α) :
    Except.map f (.ok x) = (.ok (f x) : Except ε β) := rfl

theorem exceptMap_error {ε α β : Type} (f : α → β) (e : ε) :
    Except.map f (.error e) = (.error e : Except ε β) := rfl

theorem deserializeElems_serializeElems {V : Type} (c : ValueCodec V) (hc : Roundtrips c)
    (s : State V) (rest : List Nat) :
    deserializeElems c s.length (serializeElems c s ++ rest) = .ok (s, rest) := by
  induction s with
  | nil => rfl
  | cons e es ih =>
    cases e with
    | none =>
      show deserializeElems c (es.length + 1) (1 :: (serializeElems c es ++ rest)) = _
      rw [deserializeElems, if_pos (by omega), ih, exceptMap_ok]
    | some v =>
      have hstream : serializeElems c (some v :: es) ++ rest =
          0 :: (c.enc v ++ (serializeElems c es ++ rest)) := by
        simp [serializeElems, serializeElem]
      rw [List.length_cons, hstream]
      rw [deserializeElems, if_neg (by omega), hc v (serializeElems c es ++ rest)]
      show Except.map (fun pr2 => (some v :: pr2.1, pr2.2))
          (deserializeElems c es.length (serializeElems c es ++ rest)) =
        Except.ok (some v :: es, rest)
      rw [ih, exceptMap_ok]

theorem deserializeElems_length {V : Type} (c : ValueCodec V) :
    ∀ (n : Nat) (bs : List Nat) (arr : State V) (rest : List Nat),
      deserializeElems c n bs = .ok (arr, rest) → arr.length = n := by
  intro n
  induction n with
  | zero =>
    intro bs arr rest h
    rw [deserializeElems] at h
    cases h
    rfl
  | succ m ih =>
    intro bs arr rest h
    cases bs with
    | nil => rw [deserializeElems] at h; cases h
    | cons flag bs1 =>
      rw [deserializeElems] at h
      by_cases hf : flag ≠ 0
      · rw [if_pos hf] at h
        cases he : deserializeElems c m bs1 with
        | ok pr =>
          rw [he, exceptMap_ok] at h
          have harr : none :: pr.1 = arr := congrArg Prod.fst (Except.ok.inj h)
          have hlen := ih bs1 pr.1 pr.2 (by rw [he])
          rw [← harr, List.length_cons, hlen]
        | error e => rw [he, exceptMap_error] at h; cases h
      · rw [if_neg hf] at h
        cases hd : c.dec bs1 with
        | none => rw [hd] at h; cases h
        | some pr =>
          rw [hd] at h
          have h2 : Except.map (fun pr2 => (some pr.1 :: pr2.1, pr2.2))
              (deserializeElems c m pr.2) = Except.ok (arr, rest) := h
          cases he : deserializeElems c m pr.2 with
          | ok pr2 =>
            rw [he, exceptMap_ok] at h2
            have harr : some pr.1 :: pr2.1 = arr := congrArg Prod.fst (Except.ok.inj h2)
            have hlen := ih pr.2 pr2.1 pr2.2 (by rw [he])
            rw [← harr, List.length_cons, hlen]
          | error e => rw [he, exceptMap_error] at h2; cases h2

theorem deserializeElems_ne_tooLarge {V : Type} (c : ValueCodec V) :
    ∀ (n : Nat) (bs : List Nat),
      deserializeElems c n bs ≠ .error .tooLargeArraySize := by
  intro n
  induction n with
  | zero => intro bs h; rw [deserializeElems] at h; cases h
  | succ m ih =>
    intro bs h
    cases bs with
    | nil => rw [deserializeElems] at h; cases h
    | cons flag bs1 =>
      rw [deserializeElems] at h
      by_cases hf : flag ≠ 0
      · rw [if_pos hf] at h
        cases he : deserializeElems c m bs1 with
        | ok pr => rw [he, exceptMap_ok] at h; cases h
        | error e =>
          rw [he, exceptMap_error] at h
          cases h
          exact ih bs1 he
      · rw [if_neg hf] at h
        cases hd : c.dec bs1 with
        | none => rw [hd] at h; cases h
        | some pr =>
          rw [hd] at h
          have h2 : Except.map (fun pr2 => (some pr.1 :: pr2.1, pr2.2))
              (deserializeElems c m pr.2) = Except.error .tooLargeArraySize := h
          cases he : deserializeElems c m pr.2 with
          | ok pr2 => rw [he, exceptMap_ok] at h2; cases h2
          | error e =>
            rw [he, exceptMap_error] at h2
            cases h2
            exact ih pr.2 he

/-! Behaviour of `add` on an empty slot and on an occupied slot. -/

theorem lt_length_of_slotAt_some {V : Type} {s : State V} {p : Nat} {x : V}
    (h : slotAt s p = some x) : p < s.length := by
  by_contra hh
  rw [slotAt_of_length_le s p (by omega)] at h
  cases h

theorem add_of_empty {V : Type} (cfg : Config V) (s : State V) (v : Option V) (p : Nat)
    (hL : cfg.length_to_resize = 0 ∨ p < cfg.length_to_resize)
    (hp : p < AGGREGATE_FUNCTION_GROUP_ARRAY_INSERT_AT_MAX_SIZE)
    (hempty : slotAt s p = none) :
    ∃ s1, add cfg s v p = .ok s1 ∧ slotAt s1 p = v ∧
      s1.length = max s.length (p + 1) ∧
      ∀ q : Nat, q ≠ p → slotAt s1 q = slotAt s q := by
  have hnotdrop : ¬ (cfg.length_to_resize ≠ 0 ∧ cfg.length_to_resize ≤ p) := by
    rcases hL with h0 | hlt
    · simp [h0]
    · intro hand; omega
  unfold add
  rw [if_neg hnotdrop, if_neg (by omega)]
  by_cases hlen : s.length ≤ p
  · rw [if_pos hlen]
    refine ⟨_, rfl, ?_, ?_, ?_⟩
    · have hg : (s ++ List.replicate (p + 1 - s.length) (none : Option V)).length = p + 1 := by
        simp; omega
      simp [slotAt, List.getD_eq_getElem?_getD, List.getElem?_set_self, hg]
    · simp; omega
    · intro q hq
      have : ((s ++ List.replicate (p + 1 - s.length) (none : Option V)).set p v)[q]? =
          (s ++ List.replicate (p + 1 - s.length) (none : Option V))[q]? :=
        List.getElem?_set_ne (fun hqp => hq hqp.symm)
      rw [slotAt, List.getD_eq_getElem?_getD, this, ← List.getD_eq_getElem?_getD]
      exact slotAt_append_replicate s _ q
  · rw [if_neg hlen, if_neg (by rw [hempty]; simp)]
    refine ⟨_, rfl, ?_, ?_, ?_⟩
    · have hps : p < s.length := by omega
      simp [slotAt, List.getD_eq_getElem?_getD, List.getElem?_set_self, hps]
    · simp; omega
    · intro q hq
      rw [slotAt, List.getD_eq_getElem?_getD,
        List.getElem?_set_ne (fun hqp => hq hqp.symm), ← List.getD_eq_getElem?_getD]
      rfl

theorem add_of_full {V : Type} (cfg : Config V) (s : State V) (p : Nat) (x : V)
    (hfull : slotAt s p = some x) (v : Option V) (s1 : State V)
    (h : add cfg s v p = .ok s1) : s1 = s := by
  have hps : p < s.length := lt_length_of_slotAt_some hfull
  unfold add at h
  by_cases h1 : cfg.length_to_resize ≠ 0 ∧ cfg.length_to_resize ≤ p
  · rw [if_pos h1] at h
    exact (Except.ok.inj h).symm
  · rw [if_neg h1] at h
    by_cases h2 : AGGREGATE_FUNCTION_GROUP_ARRAY_INSERT_AT_MAX_SIZE ≤ p
    · rw [if_pos h2] at h
      cases h
    · rw [if_neg h2, if_neg (by omega), if_pos (by rw [hfull]; rfl)] at h
      exact (Except.ok.inj h).symm

/-! Behaviour of `deserializeState` and the length bound of successful calls. -/

theorem deserializeState_ok_length {V : Type} (c : ValueCodec V) (bs : List Nat)
    (s : State V) (rest : List Nat) (h : deserializeState c bs = .ok (s, rest)) :
    s.length ≤ AGGREGATE_FUNCTION_GROUP_ARRAY_INSERT_AT_MAX_SIZE := by
  unfold deserializeState at h
  cases hr : readVarUInt bs with
  | none => rw [hr] at h; cases h
  | some pr =>
    obtain ⟨size, rest1⟩ := pr
    rw [hr] at h
    have h2 : (if AGGREGATE_FUNCTION_GROUP_ARRAY_INSERT_AT_MAX_SIZE < size then
        Except.error .tooLargeArraySize
      else deserializeElems c size rest1) = Except.ok (s, rest) := h
    by_cases hb : AGGREGATE_FUNCTION_GROUP_ARRAY_INSERT_AT_MAX_SIZE < size
    · rw [if_pos hb] at h2
      cases h2
    · rw [if_neg hb] at h2
      have := deserializeElems_length c size rest1 s rest h2
      omega

theorem add_keep {V : Type} (cfg : Config V) (s : State V) (p : Nat) (x : V)
    (hfull : slotAt s p = some x)
    (hL : cfg.length_to_resize = 0 ∨ p < cfg.length_to_resize)
    (hp : p < AGGREGATE_FUNCTION_GROUP_ARRAY_INSERT_AT_MAX_SIZE)
    (v : Option V) : add cfg s v p = .ok s := by
  have hps : p < s.length := lt_length_of_slotAt_some hfull
  have hnotdrop : ¬ (cfg.length_to_resize ≠ 0 ∧ cfg.length_to_resize ≤ p) := by
    rcases hL with h0 | hlt
    · simp [h0]
    · intro hand; omega
  unfold add
  rw [if_neg hnotdrop, if_neg (by omega), if_neg (by omega), if_pos (by rw [hfull]; rfl)]

theorem add_ok_length {V : Type} (cfg : Config V) (s : State V) (v : Option V) (p : Nat)
    (s1 : State V) (h : add cfg s v p = .ok s1)
    (hs : s.length ≤ AGGREGATE_FUNCTION_GROUP_ARRAY_INSERT_AT_MAX_SIZE) :
    s1.length ≤ AGGREGATE_FUNCTION_GROUP_ARRAY_INSERT_AT_MAX_SIZE := by
  unfold add at h
  by_cases h1 : cfg.length_to_resize ≠ 0 ∧ cfg.length_to_resize ≤ p
  · rw [if_pos h1] at h
    rw [← Except.ok.inj h]
    exact hs
  · rw [if_neg h1] at h
    by_cases h2 : AGGREGATE_FUNCTION_GROUP_ARRAY_INSERT_AT_MAX_SIZE ≤ p
    · rw [if_pos h2] at h
      cases h
    · rw [if_neg h2] at h
      by_cases h3 : s.length ≤ p
      · rw [if_pos h3] at h
        rw [← Except.ok.inj h]
        simp
        omega
      · rw [if_neg h3] at h
        by_cases h4 : (slotAt s p).isSome
        · rw [if_pos h4] at h
          rw [← Except.ok.inj h]
          exact hs
        · rw [if_neg h4] at h
          rw [← Except.ok.inj h]
          simp [hs]

/-- C1: for every state and configuration (and any well-formed output column the
row is appended to), `insertResultInto` emits a row of length `length_to_resize`
when that is non-zero and `len(slots)` otherwise, and the element at each index
`i` of the row is `slots[i]` when that slot exists and is non-empty, and
`default_value` otherwise — also for states longer than the configured length. -/
theorem finalize_length_and_defaulting {V : Type} (cfg : Config V) (s : State V)
    (col : ColumnArray V) (hwf : WellFormed col) :
    (lastRow (insertResultInto cfg s col)).length =
      (if cfg.length_to_resize ≠ 0 then cfg.length_to_resize else s.length) ∧
    ∀ i : Nat, i < (if cfg.length_to_resize ≠ 0 then cfg.length_to_resize else s.length) →
      (lastRow (insertResultInto cfg s col))[i]? =
        some ((slotAt s i).getD cfg.default_value) := by
  constructor
  · rw [lastRow_length cfg s col hwf]
    rfl
  · intro i hi
    exact lastRow_getElem? cfg s col hwf i hi

/-- Witness for C1 at a concrete input: `fixed_length = 2`, default `7`, and a
state of three slots (more than the fixed length): the row has exactly two
elements, `7` (empty slot) and `5`. -/
theorem finalize_length_and_defaulting_witness :
    WellFormed (⟨[], []⟩ : ColumnArray Nat) ∧
    ((lastRow (insertResultInto (Config.mk 7 2) [none, some 5, some 9] ⟨[], []⟩)).length = 2 ∧
      ∀ i : Nat, i < 2 →
        (lastRow (insertResultInto (Config.mk 7 2) [none, some 5, some 9] ⟨[], []⟩))[i]? =
          some ((slotAt ([none, some 5, some 9] : State Nat) i).getD 7)) :=
  ⟨rfl, finalize_length_and_defaulting (Config.mk 7 2) [none, some 5, some 9] ⟨[], []⟩ rfl⟩

/-- C2: inserting value `A` and then value `B` at the same position `p` of a
state whose slot `p` is still empty yields `A` at index `p` of the finalized
output, never `B` (positions below the caps, so that neither call drops). -/
theorem first_write_wins {V : Type} (cfg : Config V) (s : State V) (a b : V) (p : Nat)
    (hL : cfg.length_to_resize = 0 ∨ p < cfg.length_to_resize)
    (hp : p < AGGREGATE_FUNCTION_GROUP_ARRAY_INSERT_AT_MAX_SIZE)
    (hempty : slotAt s p = none) :
    ∃ s1 s2, add cfg s (some a) p = .ok s1 ∧ add cfg s1 (some b) p = .ok s2 ∧
      (lastRow (insertResultInto cfg s2 ⟨[], []⟩))[p]? = some a := by
  obtain ⟨s1, h1, hslot1, hlen1, _⟩ := add_of_empty cfg s (some a) p hL hp hempty
  have h2 : add cfg s1 (some b) p = .ok s1 := add_keep cfg s1 p a hslot1 hL hp (some b)
  have hi : p < resultArraySize cfg s1 := by
    unfold resultArraySize
    rcases hL with h0 | hlt
    · rw [if_neg (by simp [h0])]
      omega
    · rw [if_pos (by omega)]
      exact hlt
  refine ⟨s1, s1, h1, h2, ?_⟩
  rw [lastRow_getElem? cfg s1 ⟨[], []⟩ rfl p hi, hslot1]
  rfl

/-- Witness for C2 at a concrete input: inserting `10` then `20` at position `1`
of the empty state; the output row holds `10` at index `1`. -/
theorem first_write_wins_witness :
    ((0 : Nat) = 0 ∨ (1 : Nat) < 0) ∧
    (1 : Nat) < AGGREGATE_FUNCTION_GROUP_ARRAY_INSERT_AT_MAX_SIZE ∧
    slotAt ([] : State Nat) 1 = none ∧
    (∃ s1 s2, add (Config.mk (0 : Nat) 0) [] (some 10) 1 = .ok s1 ∧
      add (Config.mk (0 : Nat) 0) s1 (some 20) 1 = .ok s2 ∧
      (lastRow (insertResultInto (Config.mk (0 : Nat) 0) s2 ⟨[], []⟩))[1]? = some 10) :=
  ⟨Or.inl rfl, by decide, rfl,
    first_write_wins (Config.mk (0 : Nat) 0) [] 10 20 1 (Or.inl rfl) (by decide) rfl⟩

/-- C3: deserializing the byte stream produced by serializing any valid state
(length within the cap) over a self-delimiting value codec yields exactly that
state back, with the whole stream consumed. -/
theorem serialize_deserialize_roundtrip {V : Type} (c : ValueCodec V) (s : State V)
    (hc : Roundtrips c)
    (hlen : s.length ≤ AGGREGATE_FUNCTION_GROUP_ARRAY_INSERT_AT_MAX_SIZE) :
    deserializeState c (serializeState c s) = .ok (s, []) := by
  unfold deserializeState serializeState
  rw [readVarUInt_writeVarUInt]
  show (if AGGREGATE_FUNCTION_GROUP_ARRAY_INSERT_AT_MAX_SIZE < s.length then
      Except.error .tooLargeArraySize
    else deserializeElems c s.length (serializeElems c s)) = .ok (s, [])
  rw [if_neg (by omega)]
  have h := deserializeElems_serializeElems c hc s []
  rw [List.append_nil] at h
  exact h

/-- Witness for C3 at a concrete input: a three-slot state with a null in the
middle round-trips through the one-byte-per-value codec. -/
theorem serialize_deserialize_roundtrip_witness :
    Roundtrips natCodec ∧
    deserializeState natCodec (serializeState natCodec [some 5, none, some 7]) =
      .ok (([some 5, none, some 7] : State Nat), []) :=
  ⟨fun v rest => rfl,
    serialize_deserialize_roundtrip natCodec [some 5, none, some 7]
      (fun v rest => rfl) (by decide)⟩

/-- C4: for every pair of states, `merge` yields a state of length
`max(len(dst), len(src))` whose slot `i` is `dst`'s slot when that is non-empty
and `src`'s slot otherwise; consequently the empty state is a two-sided unit. -/
theorem merge_spec {V : Type} (dst src : State V) :
    (merge dst src).length = max dst.length src.length ∧
    (∀ i : Nat, slotAt (merge dst src) i =
      if (slotAt dst i).isSome then slotAt dst i else slotAt src i) ∧
    merge dst [] = dst ∧ merge [] src = src := by
  refine ⟨merge_length dst src, slotAt_merge dst src, ?_, ?_⟩
  · unfold merge
    simp [mergeLoop]
  · apply State.ext
    · rw [merge_length]
      simp
    · intro i
      rw [slotAt_merge, slotAt_nil]
      simp

/-- C5: when no position holds a non-empty value in more than one of the three
states (pairwise disjoint written positions), `merge` is commutative and
associative. -/
theorem merge_comm_assoc_of_disjoint {V : Type} (a b c : State V)
    (hab : ∀ i : Nat, ¬((slotAt a i).isSome ∧ (slotAt b i).isSome))
    (hbc : ∀ i : Nat, ¬((slotAt b i).isSome ∧ (slotAt c i).isSome))
    (hac : ∀ i : Nat, ¬((slotAt a i).isSome ∧ (slotAt c i).isSome)) :
    merge a b = merge b a ∧ merge (merge a b) c = merge a (merge b c) := by
  constructor
  · apply State.ext
    · rw [merge_length, merge_length, Nat.max_comm]
    · intro i
      rw [slotAt_merge, slotAt_merge]
      rcases ha : slotAt a i with _ | x <;> rcases hb : slotAt b i with _ | y
      · simp
      · simp
      · simp
      · exfalso
        have hcontra := hab i
        rw [ha, hb] at hcontra
        simp at hcontra
  · apply State.ext
    · rw [merge_length, merge_length, merge_length, merge_length, Nat.max_assoc]
    · intro i
      rw [slotAt_merge, slotAt_merge, slotAt_merge, slotAt_merge]
      rcases slotAt a i with _ | x <;> simp

/-- Witness for C5 at concrete inputs: `[some 1]`, `[none, some 2]` and the
empty state write pairwise disjoint positions, and merge commutes and
reassociates on them. -/
theorem merge_comm_assoc_of_disjoint_witness :
    (∀ i : Nat, ¬((slotAt ([some 1] : State Nat) i).isSome ∧
      (slotAt ([none, some 2] : State Nat) i).isSome)) ∧
    (∀ i : Nat, ¬((slotAt ([none, some 2] : State Nat) i).isSome ∧
      (slotAt ([] : State Nat) i).isSome)) ∧
    (∀ i : Nat, ¬((slotAt ([some 1] : State Nat) i).isSome ∧
      (slotAt ([] : State Nat) i).isSome)) ∧
    (merge [some 1] [none, some 2] = merge [none, some 2] [some 1] ∧
      merge (merge [some 1] [none, some 2]) [] =
        merge ([some 1] : State Nat) (merge [none, some 2] [])) := by
  have hab : ∀ i : Nat, ¬((slotAt ([some 1] : State Nat) i).isSome ∧
      (slotAt ([none, some 2] : State Nat) i).isSome) := by
    intro i
    match i with
    | 0 => simp [slotAt_cons_zero]
    | 1 =>
      rw [slotAt_of_length_le ([some 1] : State Nat) 1 (by simp)]
      simp
    | n + 2 =>
      rw [slotAt_of_length_le ([some 1] : State Nat) (n + 2) (by simp)]
      simp
  have hbc : ∀ i : Nat, ¬((slotAt ([none, some 2] : State Nat) i).isSome ∧
      (slotAt ([] : State Nat) i).isSome) := by
    intro i
    rw [slotAt_nil]
    simp
  have hac : ∀ i : Nat, ¬((slotAt ([some 1] : State Nat) i).isSome ∧
      (slotAt ([] : State Nat) i).isSome) := by
    intro i
    rw [slotAt_nil]
    simp
  exact ⟨hab, hbc, hac, merge_comm_assoc_of_disjoint [some 1] [none, some 2] [] hab hbc hac⟩

/-- C6: every state reachable from the empty state by successful inserts,
merges of reachable states, and successful deserializations satisfies
`len(slots) <= MAX_SIZE` (16,777,215). -/
theorem reachable_length_le {V : Type} (cfg : Config V) (c : ValueCodec V) (s : State V)
    (h : Reachable cfg c s) :
    s.length ≤ AGGREGATE_FUNCTION_GROUP_ARRAY_INSERT_AT_MAX_SIZE := by
  induction h with
  | empty => exact Nat.zero_le _
  | insert hr hadd ih => exact add_ok_length _ _ _ _ _ hadd ih
  | mergeStep h1 h2 ih1 ih2 =>
    rw [merge_length]
    omega
  | deser hds => exact deserializeState_ok_length c _ _ _ hds

/-- Witness for C6 at a concrete input: the state `[some 3]` reached by one
insert from the empty state satisfies the bound. -/
theorem reachable_length_le_witness :
    Reachable (Config.mk (0 : Nat) 0) natCodec [some 3] ∧
    ([some 3] : State Nat).length ≤ AGGREGATE_FUNCTION_GROUP_ARRAY_INSERT_AT_MAX_SIZE := by
  have hr : Reachable (Config.mk (0 : Nat) 0) natCodec [some 3] :=
    Reachable.insert (v := some 3) (p := 0) Reachable.empty rfl
  exact ⟨hr, reachable_length_le (Config.mk (0 : Nat) 0) natCodec [some 3] hr⟩

/-- C7: a slot that holds a non-null value is never overwritten: a later insert
at that position that succeeds leaves the slot unchanged, and merging any other
state into this one keeps the slot's value. -/
theorem slot_never_overwritten {V : Type} (cfg : Config V) (s : State V) (p : Nat) (x : V)
    (hx : slotAt s p = some x) :
    (∀ (v : Option V) (s1 : State V), add cfg s v p = .ok s1 → slotAt s1 p = some x) ∧
    (∀ t : State V, slotAt (merge s t) p = some x) := by
  constructor
  · intro v s1 h
    rw [add_of_full cfg s p x hx v s1 h]
    exact hx
  · intro t
    rw [slotAt_merge, hx]
    simp

/-- Witness for C7 at a concrete input: slot `0` of `[some 4]` holds `4`, and
neither a later insert nor any merge replaces it. -/
theorem slot_never_overwritten_witness :
    slotAt ([some 4] : State Nat) 0 = some 4 ∧
    ((∀ (v : Option Nat) (s1 : State Nat),
        add (Config.mk (0 : Nat) 0) [some 4] v 0 = .ok s1 → slotAt s1 0 = some 4) ∧
      (∀ t : State Nat, slotAt (merge [some 4] t) 0 = some 4)) :=
  ⟨rfl, slot_never_overwritten (Config.mk (0 : Nat) 0) [some 4] 0 4 rfl⟩

/-- C8: with `length_to_resize` configured non-zero and `position` at or beyond
it, `add` is a silent no-op: it succeeds returning the state unchanged, so the
serialized bytes and the finalized output of the result equal those of the
original state. -/
theorem add_silent_drop {V : Type} (cfg : Config V) (s : State V) (v : Option V) (p : Nat)
    (c : ValueCodec V) (col : ColumnArray V)
    (hL : cfg.length_to_resize ≠ 0) (hp : cfg.length_to_resize ≤ p) :
    add cfg s v p = .ok s ∧
    ∀ s1 : State V, add cfg s v p = .ok s1 →
      serializeState c s1 = serializeState c s ∧
      insertResultInto cfg s1 col = insertResultInto cfg s col := by
  have h : add cfg s v p = .ok s := by
    unfold add
    rw [if_pos ⟨hL, hp⟩]
  refine ⟨h, ?_⟩
  intro s1 h1
  rw [h] at h1
  rw [← Except.ok.inj h1]
  exact ⟨rfl, rfl⟩

/-- Witness for C8 at a concrete input: `length_to_resize = 3`, inserting at
position `5` leaves the state `[some 1]` unchanged. -/
theorem add_silent_drop_witness :
    (Config.mk (0 : Nat) 3).length_to_resize ≠ 0 ∧
    (Config.mk (0 : Nat) 3).length_to_resize ≤ 5 ∧
    (add (Config.mk (0 : Nat) 3) [some 1] (some 9) 5 = .ok [some 1] ∧
      ∀ s1 : State Nat, add (Config.mk (0 : Nat) 3) [some 1] (some 9) 5 = .ok s1 →
        serializeState natCodec s1 = serializeState natCodec [some 1] ∧
        insertResultInto (Config.mk (0 : Nat) 3) s1 ⟨[], []⟩ =
          insertResultInto (Config.mk (0 : Nat) 3) [some 1] ⟨[], []⟩) :=
  ⟨by decide, by decide,
    add_silent_drop (Config.mk (0 : Nat) 3) [some 1] (some 9) 5 natCodec ⟨[], []⟩
      (by decide) (by decide)⟩

/-- C9: when the silent-drop rule does not apply, inserting at a position at or
beyond `MAX_SIZE` (including exactly `MAX_SIZE`) fails with the
too-large-array-size error and yields no new state; and `deserializeState`
fails with that error exactly when the declared size read from the stream
exceeds `MAX_SIZE`. -/
theorem too_large_position_and_size {V : Type} (cfg : Config V) (s : State V)
    (v : Option V) (p : Nat) (c : ValueCodec V)
    (hL : cfg.length_to_resize = 0 ∨ p < cfg.length_to_resize)
    (hp : AGGREGATE_FUNCTION_GROUP_ARRAY_INSERT_AT_MAX_SIZE ≤ p) :
    add cfg s v p = .error .tooLargeArraySize ∧
    ∀ bs : List Nat,
      deserializeState c bs = .error .tooLargeArraySize ↔
        ∃ (n : Nat) (rest : List Nat), readVarUInt bs = some (n, rest) ∧
          AGGREGATE_FUNCTION_GROUP_ARRAY_INSERT_AT_MAX_SIZE < n := by
  constructor
  · have hnotdrop : ¬ (cfg.length_to_resize ≠ 0 ∧ cfg.length_to_resize ≤ p) := by
      rcases hL with h0 | hlt
      · simp [h0]
      · intro hand; omega
    unfold add
    rw [if_neg hnotdrop, if_pos hp]
  · intro bs
    constructor
    · intro h
      unfold deserializeState at h
      cases hr : readVarUInt bs with
      | none => rw [hr] at h; cases h
      | some pr =>
        obtain ⟨n, rest⟩ := pr
        rw [hr] at h
        have h2 : (if AGGREGATE_FUNCTION_GROUP_ARRAY_INSERT_AT_MAX_SIZE < n then
            Except.error .tooLargeArraySize
          else deserializeElems c n rest) = Except.error AggError.tooLargeArraySize := h
        by_cases hb : AGGREGATE_FUNCTION_GROUP_ARRAY_INSERT_AT_MAX_SIZE < n
        · exact ⟨n, rest, rfl, hb⟩
        · rw [if_neg hb] at h2
          exact absurd h2 (deserializeElems_ne_tooLarge c n rest)
    · rintro ⟨n, rest, hr, hb⟩
      unfold deserializeState
      rw [hr]
      show (if AGGREGATE_FUNCTION_GROUP_ARRAY_INSERT_AT_MAX_SIZE < n then
          Except.error .tooLargeArraySize
        else deserializeElems c n rest) = Except.error AggError.tooLargeArraySize
      rw [if_pos hb]

/-- Witness for C9 at a concrete input: with no fixed length, inserting at
position exactly `16777215` fails with the too-large error, and the
deserialization characterization holds for the one-byte-per-value codec. -/
theorem too_large_position_and_size_witness :
    ((Config.mk (0 : Nat) 0).length_to_resize = 0 ∨
      16777215 < (Config.mk (0 : Nat) 0).length_to_resize) ∧
    AGGREGATE_FUNCTION_GROUP_ARRAY_INSERT_AT_MAX_SIZE ≤ 16777215 ∧
    (add (Config.mk (0 : Nat) 0) [] (some 1) 16777215 = .error .tooLargeArraySize ∧
      ∀ bs : List Nat,
        deserializeState natCodec bs = .error .tooLargeArraySize ↔
          ∃ (n : Nat) (rest : List Nat), readVarUInt bs = some (n, rest) ∧
            AGGREGATE_FUNCTION_GROUP_ARRAY_INSERT_AT_MAX_SIZE < n) :=
  ⟨Or.inl rfl, by decide,
    too_large_position_and_size (Config.mk (0 : Nat) 0) [] (some 1) 16777215 natCodec
      (Or.inl rfl) (by decide)⟩

/-- C10: inserting a Null value at position `p` of a state whose slot `p` is
empty leaves the slot empty; a subsequent insert of a non-null value at `p`
stores it, and finalizing the state while the slot is still empty emits
`default_value` at that position. -/
theorem null_insert_keeps_slot_empty {V : Type} (cfg : Config V) (s : State V)
    (p : Nat) (v : V)
    (hL : cfg.length_to_resize = 0 ∨ p < cfg.length_to_resize)
    (hp : p < AGGREGATE_FUNCTION_GROUP_ARRAY_INSERT_AT_MAX_SIZE)
    (hempty : slotAt s p = none) :
    ∃ s1 s2, add cfg s none p = .ok s1 ∧ slotAt s1 p = none ∧
      add cfg s1 (some v) p = .ok s2 ∧ slotAt s2 p = some v ∧
      (lastRow (insertResultInto cfg s1 ⟨[], []⟩))[p]? = some cfg.default_value := by
  obtain ⟨s1, h1, hslot1, hlen1, _⟩ := add_of_empty cfg s none p hL hp hempty
  obtain ⟨s2, h2, hslot2, _, _⟩ := add_of_empty cfg s1 (some v) p hL hp hslot1
  have hi : p < resultArraySize cfg s1 := by
    unfold resultArraySize
    rcases hL with h0 | hlt
    · rw [if_neg (by simp [h0])]
      omega
    · rw [if_pos (by omega)]
      exact hlt
  refine ⟨s1, s2, h1, hslot1, h2, hslot2, ?_⟩
  rw [lastRow_getElem? cfg s1 ⟨[], []⟩ rfl p hi, hslot1]
  rfl

/-- Witness for C10 at a concrete input: inserting Null at position `1` of the
empty state keeps the slot empty (finalize emits the default `7` there), and a
later insert of `3` fills it. -/
theorem null_insert_keeps_slot_empty_witness :
    ((0 : Nat) = 0 ∨ (1 : Nat) < 0) ∧
    (1 : Nat) < AGGREGATE_FUNCTION_GROUP_ARRAY_INSERT_AT_MAX_SIZE ∧
    slotAt ([] : State Nat) 1 = none ∧
    (∃ s1 s2, add (Config.mk (7 : Nat) 0) [] none 1 = .ok s1 ∧ slotAt s1 1 = none ∧
      add (Config.mk (7 : Nat) 0) s1 (some 3) 1 = .ok s2 ∧ slotAt s2 1 = some 3 ∧
      (lastRow (insertResultInto (Config.mk (7 : Nat) 0) s1 ⟨[], []⟩))[1]? = some 7) :=
  ⟨Or.inl rfl, by decide, rfl,
    null_insert_keeps_slot_empty (Config.mk (7 : Nat) 0) [] 1 3 (Or.inl rfl) (by decide) rfl⟩

end GroupArrayInsertAt
